import Mathlib

/-!
Verification development for the Furze chat front-end
(`streamlit_app.py` + `security_utils.py`).

Strings are modelled as `List Char`. Python regular-expression
searching (used only for the fixed injection-pattern lists) is modelled
with a Brzozowski-derivative matcher; laziness of `.*?` is irrelevant
because only matchability (`re.search` truthiness) is observed.
-/

set_option maxRecDepth 16000

namespace Furze

/-- Whitespace as recognised by Python `str.split` / `str.strip` / regex
`\s` (ASCII control whitespace, the separator controls, and the common
Unicode space code points). -/
def pyIsSpace (c : Char) : Bool :=
  c = ' ' || c = '\t' || c = '\n' || c = '\r' || c = '\x0b' || c = '\x0c' ||
  (28 ≤ c.toNat && c.toNat ≤ 31) || c.toNat = 0x85 || c.toNat = 0xa0 ||
  c.toNat = 0x1680 || (0x2000 ≤ c.toNat && c.toNat ≤ 0x200a) ||
  c.toNat = 0x2028 || c.toNat = 0x2029 || c.toNat = 0x202f ||
  c.toNat = 0x205f || c.toNat = 0x3000

/-- Drop the longest suffix whose characters satisfy `p`. -/
def dropTrail (p : Char → Bool) (l : List Char) : List Char :=
  (l.reverse.dropWhile p).reverse

/-- Python `str.strip()`. -/
def pyStrip (l : List Char) : List Char :=
  dropTrail pyIsSpace (l.dropWhile pyIsSpace)

/-- Python `str.split(sep)` for a single-character separator
(keeps empty fields, always returns at least one field). -/
def splitOnChar (sep : Char) : List Char → List (List Char)
  | [] => [[]]
  | c :: rest =>
    if c = sep then [] :: splitOnChar sep rest
    else
      match splitOnChar sep rest with
      | [] => [[c]]
      | r :: rs => (c :: r) :: rs

/-- Substring containment test (Python `in` on strings). -/
def containsSub (pat l : List Char) : Bool :=
  l.tails.any (fun t => pat.isPrefixOf t)

/-! ### A small regular-expression engine (Brzozowski derivatives) -/

/-- Regular expressions over characters: empty language, empty string,
single character, character class, `.` (any char except newline),
concatenation, alternation, and Kleene star. -/
inductive RE : Type
  | fail : RE
  | eps : RE
  | lone (c : Char) : RE
  | cls (p : Char → Bool) : RE
  | dot : RE
  | cat (a b : RE) : RE
  | alt (a b : RE) : RE
  | star (a : RE) : RE

/-- Does the regex accept the empty string? -/
def RE.nullable : RE → Bool
  | .fail => false
  | .eps => true
  | .lone _ => false
  | .cls _ => false
  | .dot => false
  | .cat a b => a.nullable && b.nullable
  | .alt a b => a.nullable || b.nullable
  | .star _ => true

/-- Brzozowski derivative of a regex by one character. -/
def RE.deriv : RE → Char → RE
  | .fail, _ => .fail
  | .eps, _ => .fail
  | .lone c, d => if c = d then .eps else .fail
  | .cls p, d => if p d then .eps else .fail
  | .dot, d => if d = '\n' then .fail else .eps
  | .cat a b, d =>
    if a.nullable then .alt (.cat (a.deriv d) b) (b.deriv d)
    else .cat (a.deriv d) b
  | .alt a b, d => .alt (a.deriv d) (b.deriv d)
  | .star a, d => .cat (a.deriv d) (.star a)

/-- Does the regex match the whole character list? -/
def reFull (r : RE) (l : List Char) : Bool :=
  (l.foldl RE.deriv r).nullable

/-- Does the regex match some prefix of the character list? -/
def reStarts (r : RE) : List Char → Bool
  | [] => r.nullable
  | c :: rest => r.nullable || reStarts (r.deriv c) rest

/-- Python `re.search`: does the regex match somewhere inside the list? -/
def reSearch (r : RE) : List Char → Bool
  | [] => r.nullable
  | c :: rest => reStarts r (c :: rest) || reSearch r rest

/-- Python `re.search` for a pattern ending in `$` (without MULTILINE):
the match must end at the end of the string or just before a final
newline. -/
def reSearchEnd (r : RE) (l : List Char) : Bool :=
  l.tails.any (fun t => reFull (.cat r (.alt .eps (.lone '\n'))) t)

/-- Literal character sequence. -/
def lit : List Char → RE
  | [] => .eps
  | c :: rest => .cat (.lone c) (lit rest)

/-- Literal string. -/
def litS (s : String) : RE := lit s.data

/-- Regex `.*` (lazy/greedy irrelevant for matchability). -/
def anyStar : RE := .star .dot

/-- Regex `\w` (ASCII approximation: letters, digits, underscore). -/
def wchar : RE := .cls (fun c => c.isAlphanum || c = '_')

/-- Regex `\s`. -/
def schar : RE := .cls pyIsSpace

/-- Regex `r+`. -/
def plus1 (r : RE) : RE := .cat r (.star r)

/-- Concatenation of a list of regexes. -/
def reqSeq (l : List RE) : RE := l.foldr .cat .eps

/-- One injection pattern: a regex plus a flag recording whether the
source pattern was anchored at the end with `$`. -/
structure Pattern : Type where
  re : RE
  anchoredEnd : Bool

/-- Run one pattern in `re.search` style. -/
def searchPat (p : Pattern) (l : List Char) : Bool :=
  if p.anchoredEnd then reSearchEnd p.re l else reSearch p.re l

/-- Lower-casing used to model `re.IGNORECASE` (all pattern literals
are lower-case ASCII). -/
def lowerAll (l : List Char) : List Char := l.map Char.toLower

/-- The `INJECTION_PATTERNS` list of `InputValidator`. -/
def xssPatterns : List Pattern := [
  ⟨reqSeq [litS "<script", anyStar, litS ">", anyStar, litS "</script>"], false⟩,
  ⟨litS "javascript:", false⟩,
  ⟨reqSeq [litS "on", plus1 wchar, .star schar, litS "="], false⟩,
  ⟨reqSeq [litS "eval", .star schar, litS "("], false⟩,
  ⟨reqSeq [litS "expression", .star schar, litS "("], false⟩,
  ⟨litS "vbscript:", false⟩,
  ⟨reqSeq [litS "onload", .star schar, litS "="], false⟩,
  ⟨reqSeq [litS "onerror", .star schar, litS "="], false⟩,
  ⟨reqSeq [litS "onclick", .star schar, litS "="], false⟩,
  ⟨reqSeq [litS "<iframe", anyStar, litS ">"], false⟩,
  ⟨reqSeq [litS "<object", anyStar, litS ">"], false⟩,
  ⟨reqSeq [litS "<embed", anyStar, litS ">"], false⟩,
  ⟨reqSeq [litS "<form", anyStar, litS ">"], false⟩,
  ⟨litS "document.", false⟩,
  ⟨litS "window.", false⟩,
  ⟨reqSeq [litS "alert", .star schar, litS "("], false⟩,
  ⟨reqSeq [litS "prompt", .star schar, litS "("], false⟩,
  ⟨reqSeq [litS "confirm", .star schar, litS "("], false⟩,
  ⟨reqSeq [litS "exec", .star schar, litS "("], false⟩,
  ⟨reqSeq [litS "system", .star schar, litS "("], false⟩,
  ⟨reqSeq [litS "shell", .star schar, litS "("], false⟩,
  ⟨reqSeq [litS "import", plus1 schar, litS "os"], false⟩,
  ⟨litS "__import__", false⟩,
  ⟨litS "subprocess", false⟩,
  ⟨litS "pickle.loads", false⟩,
  ⟨litS "marshal.loads", false⟩,
  ⟨litS "base64.decode", false⟩]

/-- The `SQL_INJECTION_PATTERNS` list of `InputValidator`. -/
def sqlPatterns : List Pattern := [
  ⟨reqSeq [litS "union", plus1 schar, litS "select"], false⟩,
  ⟨reqSeq [litS "drop", plus1 schar, litS "table"], false⟩,
  ⟨reqSeq [litS "delete", plus1 schar, litS "from"], false⟩,
  ⟨reqSeq [litS "insert", plus1 schar, litS "into"], false⟩,
  ⟨reqSeq [litS "update", plus1 schar, litS "set"], false⟩,
  ⟨reqSeq [litS "alter", plus1 schar, litS "table"], false⟩,
  ⟨reqSeq [litS "create", plus1 schar, litS "table"], false⟩,
  ⟨reqSeq [litS "exec", .star schar, litS "("], false⟩,
  ⟨litS "sp_executesql", false⟩,
  ⟨litS "xp_cmdshell", false⟩,
  ⟨reqSeq [litS "--", .star schar], true⟩,
  ⟨reqSeq [litS "/*", anyStar, litS "*/"], false⟩,
  ⟨reqSeq [litS ";", .star schar, litS "drop"], false⟩,
  ⟨reqSeq [litS ";", .star schar, litS "delete"], false⟩,
  ⟨reqSeq [litS ";", .star schar, litS "update"], false⟩]

/-- Does any pattern in the list fire on the input (case-insensitively)? -/
def firstHit (ps : List Pattern) (l : List Char) : Bool :=
  ps.any (fun p => searchPat p (lowerAll l))

/-! ### InputValidator -/

/-- A security-log event as recorded by `SecurityLogger.log_security_event`
(only the fields the claims observe: event type and severity). -/
structure SecEvent : Type where
  etype : String
  severity : String
deriving DecidableEq, Repr

/-- Result of `InputValidator.validate_input`, together with the security
events it emits. -/
structure VResult : Type where
  ok : Bool
  errMsg : Option String
  events : List SecEvent
deriving DecidableEq, Repr

def xssRejectMsg : String :=
  "Invalid input detected. Please remove any code or scripts."

def sqlRejectMsg : String :=
  "Invalid input detected. Please remove any SQL commands."

def maxInputLength : Nat := 5000

/-- Characters allowed by the special-character class
`[^a-zA-Z0-9\s\-.,!?'"()]` (a character is special when this is false). -/
def allowedPlain (c : Char) : Bool :=
  c.isAlpha || c.isDigit || pyIsSpace c || c = '-' || c = '.' || c = ',' ||
  c = '!' || c = '?' || c = '\'' || c = '"' || c = '(' || c = ')'

/-- Number of special characters in the input. -/
def specialCharCount (l : List Char) : Nat :=
  (l.filter (fun c => !allowedPlain c)).length

/-- A control character rejected by the null-byte/control check. -/
def badCtrl (c : Char) : Bool :=
  c.toNat < 32 && !(c = '\t' || c = '\n' || c = '\r')

/-- Helper for Python `str.split()`: `acc` holds the current word,
reversed. -/
def splitWsAux : List Char → List Char → List (List Char)
  | acc, [] => if acc.isEmpty then [] else [acc.reverse]
  | acc, c :: rest =>
    if pyIsSpace c then
      if acc.isEmpty then splitWsAux [] rest
      else acc.reverse :: splitWsAux [] rest
    else splitWsAux (c :: acc) rest

/-- Python `str.split()` with no argument: split on whitespace runs,
dropping empty fields. -/
def splitWs (l : List Char) : List (List Char) := splitWsAux [] l

/-- `InputValidator.validate_input`. The special-character-ratio test
`count / len > 0.3` (Python float division) is modelled by the exact
integer comparison `10 * count > 3 * len`; both sides agree for every
input that reaches the test, because its length is at most 5000 and
fractions with denominator at most 5000 are never close enough to 0.3
for double rounding to flip the comparison. -/
def validateInput (l : List Char) : VResult :=
  if l.isEmpty || (pyStrip l).isEmpty then
    ⟨false, some "Input cannot be empty", []⟩
  else if maxInputLength < l.length then
    ⟨false, some "Input exceeds maximum length of 5000 characters", []⟩
  else if firstHit xssPatterns l then
    ⟨false, some xssRejectMsg, [⟨"xss_attempt", "INFO"⟩]⟩
  else if firstHit sqlPatterns l then
    ⟨false, some sqlRejectMsg, [⟨"sql_injection_attempt", "INFO"⟩]⟩
  else if 3 * l.length < 10 * specialCharCount l then
    ⟨false, some "Input contains too many special characters", []⟩
  else if l.any badCtrl then
    ⟨false, some "Invalid input detected", []⟩
  else if (splitWs l).any (fun w => 100 < w.length) then
    ⟨false, some "Input contains excessively long words", []⟩
  else ⟨true, none, []⟩

/-- True exactly when control reaches the special-character-ratio line
of `validate_input`, i.e. when the empty, length, XSS and SQL checks
all pass. -/
def reachesSpecialCharDivision (l : List Char) : Bool :=
  !(l.isEmpty || (pyStrip l).isEmpty) &&
  !(decide (maxInputLength < l.length)) &&
  !(firstHit xssPatterns l) && !(firstHit sqlPatterns l)

/-! ### InputValidator.sanitize_input -/

/-- Scan for the `>` closing a lazy `<.*?>` match; fails on a newline
(`.` does not match newline) or end of input. Returns the remainder
after the `>`. -/
def findTagEnd : List Char → Option (List Char)
  | [] => none
  | c :: rest =>
    if c = '>' then some rest
    else if c = '\n' then none
    else findTagEnd rest

theorem findTagEnd_length :
    ∀ l r, findTagEnd l = some r → r.length < l.length := by
  intro l
  induction l with
  | nil => intro r h; simp [findTagEnd] at h
  | cons c rest ih =>
    intro r hr
    simp only [findTagEnd] at hr
    by_cases hc : c = '>'
    · simp [hc] at hr
      subst hr
      simp
    · by_cases hn : c = '\n'
      · simp [hc, hn] at hr
      · simp [hc, hn] at hr
        exact Nat.lt_trans (ih r hr) (by simp)

/-- Python `re.sub('<.*?>', '', s)`: repeatedly delete the leftmost
shortest same-line `<…>` span. -/
def removeTags : List Char → List Char
  | [] => []
  | c :: rest =>
    if c = '<' then
      match h : findTagEnd rest with
      | some rest2 => removeTags rest2
      | none => c :: removeTags rest
    else c :: removeTags rest
termination_by l => l.length
decreasing_by
  · exact Nat.lt_trans (findTagEnd_length _ _ h) (by simp)
  · simp
  · simp

/-- `html.escape` on one character. -/
def escChar (c : Char) : List Char :=
  if c = '&' then ("&amp;").data
  else if c = '<' then ("&lt;").data
  else if c = '>' then ("&gt;").data
  else if c = '"' then ("&quot;").data
  else if c = '\'' then ("&#x27;").data
  else [c]

/-- Python `html.escape` (with quoting, the default). -/
def escapeHtml (l : List Char) : List Char := (l.map escChar).flatten

/-- Keep a character iff `ord(c) >= 32 or c in '\t\n\r'`. -/
def keepCtrl (c : Char) : Bool :=
  decide (32 ≤ c.toNat) || c = '\t' || c = '\n' || c = '\r'

/-- Drop null bytes and control characters other than tab/newline/CR. -/
def filterCtrl (l : List Char) : List Char := l.filter keepCtrl

/-- Python `' '.join(words)`. -/
def joinSp : List (List Char) → List Char
  | [] => []
  | [w] => w
  | w :: ws => w ++ ' ' :: joinSp ws

/-- Python `' '.join(s.split())`: collapse whitespace runs and trim. -/
def collapseWs (l : List Char) : List Char := joinSp (splitWs l)

/-- `InputValidator.sanitize_input`: strip tags, HTML-escape, drop
control characters, collapse whitespace, truncate to the length limit. -/
def sanitizeInput (l : List Char) : List Char :=
  (collapseWs (filterCtrl (escapeHtml (removeTags l)))).take maxInputLength

/-! ### Table-aware renderer (`display_message_with_tables`) -/

/-- The four separator substrings tested by the renderer. -/
def sepMarks : List (List Char) :=
  [("---").data, ("--|").data, ("-|-").data, ("|-|").data]

/-- Does the line contain one of the separator substrings? -/
def hasSepMark (l : List Char) : Bool :=
  sepMarks.any (fun p => containsSub p l)

/-- The renderer's `is_table_row` test on an already-stripped line:
starts with `|`, ends with `|`, and contains at least three `|`. -/
def isTableRow (ls : List Char) : Bool :=
  decide (ls.head? = some '|') && decide (ls.getLast? = some '|') &&
  decide (3 ≤ ls.count '|')

/-- The renderer's `is_separator` test on an already-stripped line:
starts with `|` and contains a separator substring. -/
def isSeparatorLine (ls : List Char) : Bool :=
  decide (ls.head? = some '|') && hasSepMark ls

/-- A line that starts or continues a table region in the renderer's
state machine. -/
def candidateLine (line : List Char) : Bool :=
  isTableRow (pyStrip line) || isSeparatorLine (pyStrip line)

/-- One output segment of the renderer's single pass: a prose block
(raw lines, later joined with newlines for markdown) or a collected run
of table lines (stripped, later handed to `render_table_from_lines`). -/
inductive Seg : Type
  | prose (lines : List (List Char)) : Seg
  | tableRun (lines : List (List Char)) : Seg
deriving DecidableEq, Repr

/-- Emit the accumulated prose block if it is non-empty. -/
def flushProse (ct : List (List Char)) : List Seg :=
  if ct.isEmpty then [] else [.prose ct]

/-- The line loop of `display_message_with_tables`: arguments are the
remaining lines, `current_text`, `table_lines` and `in_table`. -/
def dloop : List (List Char) → List (List Char) → List (List Char) → Bool → List Seg
  | [], ct, tl, it =>
    if !tl.isEmpty && it then [.tableRun tl] else flushProse ct
  | line :: rest, ct, tl, it =>
    let ls := pyStrip line
    if isTableRow ls || isSeparatorLine ls then
      if it then dloop rest ct (tl ++ [ls]) true
      else flushProse ct ++ dloop rest [] (tl ++ [ls]) true
    else
      if it && !ls.isEmpty then
        .tableRun tl :: dloop rest (ct ++ [line]) [] false
      else if !ls.isEmpty || !it then dloop rest (ct ++ [line]) tl it
      else dloop rest ct tl it

/-- Python `content.split('\n')`. -/
def splitLines (l : List Char) : List (List Char) := splitOnChar '\n' l

/-- `display_message_with_tables`, abstracted to the ordered list of
segments it renders: with no pipe in the content it falls back to one
markdown (prose) block for the whole content. -/
def displayMessageWithTables (content : List Char) : List Seg :=
  if content.contains '|' then dloop (splitLines content) [] [] false
  else [.prose (splitLines content)]

/-- The input lines a segment accounts for. -/
def segLines : Seg → List (List Char)
  | .prose ls => ls
  | .tableRun ls => ls

/-- All lines of a render plan, in order. -/
def planLines (segs : List Seg) : List (List Char) :=
  (segs.map segLines).flatten

/-- Normalised comparison for the no-line-lost property: strip each
line and drop blank ones. -/
def stripNonBlank (ls : List (List Char)) : List (List Char) :=
  (ls.map pyStrip).filter (fun l => !l.isEmpty)

/-! ### `render_table_from_lines` -/

/-- Outcome of `render_table_from_lines`: either a markdown fallback of
the raw lines, or a logical table (headers and normalised rows). -/
inductive TableOut : Type
  | markdown (lines : List (List Char)) : TableOut
  | table (headers : List (List Char)) (rows : List (List (List Char))) : TableOut
deriving DecidableEq, Repr

/-- Cells of a table line: split on `|`, discard the first and last
fields (`[1:-1]`), strip each remaining cell. -/
def cellsOf (line : List Char) : List (List Char) :=
  (((splitOnChar '|' line).drop 1).dropLast).map pyStrip

/-- Find the first line without a separator substring, with its index
(the renderer's header search). -/
def findHeader (i : Nat) : List (List Char) → Option (Nat × List Char)
  | [] => none
  | l :: rest => if hasSepMark l then findHeader (i + 1) rest else some (i, l)

/-- Row normalisation: keep empty cells only when the raw row is no
longer than the header, then pad with empty cells and truncate to the
header length. -/
def normalizeRow (hlen : Nat) (rd0 : List (List Char)) : List (List Char) :=
  let rd1 := rd0.filter (fun cell => !cell.isEmpty || decide (rd0.length ≤ hlen))
  let rd2 := rd1 ++ List.replicate (hlen - rd1.length) []
  rd2.take hlen

/-- Header extraction: cells of the header line after dropping the
outer split fields, stripped, with all empty cells removed
(`headers = [h for h in headers if h]`). -/
def tableHeaders (hl : List Char) : List (List Char) :=
  (cellsOf hl).filter (fun h => !h.isEmpty)

/-- Data lines: lines after the header index without a separator
substring. -/
def tableDataLines (hidx : Nat) (tl : List (List Char)) : List (List Char) :=
  (tl.enum.filter (fun p => decide (hidx < p.1) && !hasSepMark p.2)).map Prod.snd

/-- Data rows: each data line containing a pipe, normalised to the
header width. -/
def tableRows (hlen : Nat) (dataLines : List (List Char)) : List (List (List Char)) :=
  (dataLines.filter (fun l => l.contains '|')).map
    (fun l => normalizeRow hlen (cellsOf l))

/-- `render_table_from_lines` on a collected run of (stripped) table
lines. -/
def renderTableFromLines (tl : List (List Char)) : TableOut :=
  if tl.length < 2 then .markdown tl
  else
    match findHeader 0 tl with
    | none => .markdown tl
    | some (hidx, hl) =>
      if hl.isEmpty then .markdown tl
      else if (tableHeaders hl).isEmpty then .markdown tl
      else if (tableRows (tableHeaders hl).length (tableDataLines hidx tl)).isEmpty then
        .markdown tl
      else .table (tableHeaders hl) (tableRows (tableHeaders hl).length (tableDataLines hidx tl))

/-- The header cells as the specification describes them: split on `|`
and discard only the pair of empty fields created by the outer `|`
characters, preserving interior empty cells. -/
def specHeaderCells (line : List Char) : List (List Char) := cellsOf line

/-! ### RateLimiter -/

/-- The `requests` dictionary: user id to list of request timestamps
(seconds, as integers; `datetime` arithmetic is exact). Python dicts
iterate in insertion order, which the association list preserves. -/
abbrev RLState := List (String × List Int)

/-- Keep the timestamps satisfying `now - t < window`. -/
def cleanBucket (w now : Int) (ts : List Int) : List Int :=
  ts.filter (fun t => decide (now - t < w))

/-- `RateLimiter._clean_old_requests`: evict expired timestamps for
every user and delete users whose bucket became empty. -/
def cleanState (w now : Int) (st : RLState) : RLState :=
  (st.map (fun p => (p.1, cleanBucket w now p.2))).filter (fun p => !p.2.isEmpty)

/-- `self.requests.get(user_id, [])`. -/
def lookupBucket (uid : String) (st : RLState) : List Int :=
  match st.find? (fun p => p.1 == uid) with
  | some p => p.2
  | none => []

/-- Store a bucket for a user, inserting at the end if absent. -/
def setBucket (uid : String) (ts : List Int) (st : RLState) : RLState :=
  if st.any (fun p => p.1 == uid) then
    st.map (fun p => if p.1 == uid then (p.1, ts) else p)
  else st ++ [(uid, ts)]

/-- `RateLimiter.is_allowed`: clean, then deny if the bucket already
holds `max_requests` timestamps, else record `now` and allow. Returns
the decision and the state after the call. -/
def isAllowed (mx : Nat) (w : Int) (uid : String) (now : Int) (st : RLState) :
    Bool × RLState :=
  if mx ≤ (lookupBucket uid (cleanState w now st)).length then
    (false, cleanState w now st)
  else
    (true, setBucket uid (lookupBucket uid (cleanState w now st) ++ [now])
      (cleanState w now st))

/-- `RateLimiter.get_wait_time`: it performs no eviction and never
writes `self.requests`, so the state after the call is the input state.
(`min` of an empty bucket with `max_requests = 0` would raise in
Python; the model returns 0 there.) -/
def getWaitTime (mx : Nat) (w : Int) (uid : String) (now : Int) (st : RLState) :
    Int × RLState :=
  if (lookupBucket uid st).length < mx then (0, st)
  else
    match (lookupBucket uid st).min? with
    | none => (0, st)
    | some old => (max 0 (old + w - now), st)

/-- `RateLimiter.get_request_count`: clean, then count. -/
def getRequestCount (w : Int) (uid : String) (now : Int) (st : RLState) :
    Nat × RLState :=
  ((lookupBucket uid (cleanState w now st)).length, cleanState w now st)

/-- Run a sequence of `is_allowed` calls for one user at the given
times, collecting the decisions. -/
def runCalls (mx : Nat) (w : Int) (uid : String) : List Int → RLState → List Bool
  | [], _ => []
  | t :: ts, st =>
    let r := isAllowed mx w uid t st
    r.1 :: runCalls mx w uid ts r.2

/-- Number of allowed calls. -/
def countTrue (bs : List Bool) : Nat := (bs.filter id).length

/-! ### Security log and one chat turn -/

/-- `SecurityLogger.log_security_event`: append and keep only the last
100 entries. -/
def recordEvent (log : List SecEvent) (e : SecEvent) : List SecEvent :=
  let l2 := log ++ [e]
  l2.drop (l2.length - 100)

/-- Record several events in order. -/
def recordEvents (log : List SecEvent) (es : List SecEvent) : List SecEvent :=
  es.foldl recordEvent log

/-- Outcome of `query_langflow_api` up to the network boundary: either
an error dictionary (rate limited or invalid input) or a request about
to be sent with the sanitised input. -/
inductive QueryOut : Type
  | apiError (msg : String) : QueryOut
  | proceed (payloadInput : List Char) : QueryOut
deriving DecidableEq, Repr

/-- `query_langflow_api` before the HTTP call: rate limiting (the
denying `is_allowed` logs `rate_limit_exceeded` internally and the
caller logs it again), then validation (whose events are recorded,
followed by `input_validation_failed`), then sanitisation. -/
def queryLangflowApi (mx : Nat) (w : Int) (uid : String) (now : Int)
    (st : RLState) (log : List SecEvent) (input : List Char) :
    QueryOut × RLState × List SecEvent :=
  if !(isAllowed mx w uid now st).1 then
    (.apiError ("Too many requests. Please wait " ++
        toString (getWaitTime mx w uid now (isAllowed mx w uid now st).2).1 ++
        " seconds before trying again."),
      (isAllowed mx w uid now st).2,
      recordEvents log [⟨"rate_limit_exceeded", "INFO"⟩, ⟨"rate_limit_exceeded", "INFO"⟩])
  else
    match (validateInput input).errMsg with
    | some m =>
      (.apiError m, (isAllowed mx w uid now st).2,
        recordEvents log ((validateInput input).events ++
          [⟨"input_validation_failed", "INFO"⟩]))
    | none => (.proceed (sanitizeInput input), (isAllowed mx w uid now st).2, log)

/-- Session state seen by one chat turn: the conversation log of the
current page, the rate-limiter state and the security log. -/
structure ChatState : Type where
  msgs : List (String × String)
  rl : RLState
  log : List SecEvent
deriving DecidableEq, Repr

/-- One chat turn of the page handler: append the user message, run
`query_langflow_api`, and append the assistant message — the error
branch prefixes the error with "Sorry, I encountered an error: ". The
successful branch (HTTP call, extraction, its logging) is abstracted by
the `upstream` function. -/
def chatTurn (mx : Nat) (w : Int) (uid : String) (now : Int)
    (upstream : List Char → String) (cs : ChatState) (prompt : String) : ChatState :=
  match queryLangflowApi mx w uid now cs.rl cs.log prompt.data with
  | (.apiError m, rl2, log2) =>
    ⟨cs.msgs ++ [("user", prompt),
      ("assistant", "Sorry, I encountered an error: " ++ m)], rl2, log2⟩
  | (.proceed s, rl2, log2) =>
    ⟨cs.msgs ++ [("user", prompt), ("assistant", upstream s)], rl2, log2⟩

/-! ### Helper lemmas -/

theorem dropWhile_head_false (p : Char → Bool) :
    ∀ (l : List Char) c r, l.dropWhile p = c :: r → p c = false := by
  intro l
  induction l with
  | nil => intro c r h; simp [List.dropWhile] at h
  | cons a rest ih =>
    intro c r h
    by_cases ha : p a
    · rw [List.dropWhile_cons_of_pos ha] at h
      exact ih c r h
    · rw [List.dropWhile_cons_of_neg ha] at h
      have hac : a = c := (List.cons.inj h).1
      subst hac
      simpa using ha

theorem dropWhile_eq_self_of_head (p : Char → Bool) (l : List Char)
    (h : ∀ c r, l = c :: r → p c = false) : l.dropWhile p = l := by
  cases l with
  | nil => rfl
  | cons c r => rw [List.dropWhile_cons_of_neg]; simp [h c r rfl]

/-- The head of a stripped list is not whitespace. -/
theorem pyStrip_head (l : List Char) :
    ∀ c r, pyStrip l = c :: r → pyIsSpace c = false := by
  intro c r h
  unfold pyStrip dropTrail at h
  set a := l.dropWhile pyIsSpace with ha
  set u := a.reverse.dropWhile pyIsSpace with hu
  have hsuf : u <:+ a.reverse := List.dropWhile_suffix _
  obtain ⟨s, hs⟩ := hsuf
  have hpre : a = u.reverse ++ s.reverse := by
    have := congrArg List.reverse hs
    simpa [List.reverse_append] using this.symm
  rw [h] at hpre
  have hhead : a = c :: (r ++ s.reverse) := by simpa using hpre
  exact dropWhile_head_false pyIsSpace l c _ (by rw [← ha, hhead])

/-- The last element of a stripped list is not whitespace (stated on the
reverse). -/
theorem pyStrip_last (l : List Char) :
    ∀ c r, (pyStrip l).reverse = c :: r → pyIsSpace c = false := by
  intro c r h
  unfold pyStrip dropTrail at h
  rw [List.reverse_reverse] at h
  exact dropWhile_head_false pyIsSpace _ c r h

/-- Python `strip` is idempotent. -/
theorem pyStrip_idem (l : List Char) : pyStrip (pyStrip l) = pyStrip l := by
  have h1 : (pyStrip l).dropWhile pyIsSpace = pyStrip l :=
    dropWhile_eq_self_of_head _ _ (fun c r hc => pyStrip_head l c r hc)
  show dropTrail pyIsSpace ((pyStrip l).dropWhile pyIsSpace) = pyStrip l
  rw [h1]
  unfold dropTrail
  rw [dropWhile_eq_self_of_head _ _ (fun c r hc => pyStrip_last l c r hc)]
  exact List.reverse_reverse _

theorem stripNonBlank_append (xs ys : List (List Char)) :
    stripNonBlank (xs ++ ys) = stripNonBlank xs ++ stripNonBlank ys := by
  simp [stripNonBlank, List.filter_append]

theorem stripNonBlank_cons (x : List Char) (xs : List (List Char)) :
    stripNonBlank (x :: xs) =
      (if (pyStrip x).isEmpty then [] else [pyStrip x]) ++ stripNonBlank xs := by
  simp only [stripNonBlank, List.map_cons, List.filter_cons]
  by_cases h : (pyStrip x).isEmpty <;> simp [h]

/-- A list of already-stripped non-empty lines is fixed by
`stripNonBlank`. -/
theorem stripNonBlank_fixed (tl : List (List Char))
    (h : ∀ l ∈ tl, pyStrip l = l ∧ l ≠ []) : stripNonBlank tl = tl := by
  unfold stripNonBlank
  have hm : tl.map pyStrip = tl := by
    conv_rhs => rw [← List.map_id tl]
    exact List.map_congr_left (fun l hl => (h l hl).1)
  rw [hm]
  exact List.filter_eq_self.mpr (fun l hl => by simpa using (h l hl).2)

theorem planLines_append (xs ys : List Seg) :
    planLines (xs ++ ys) = planLines xs ++ planLines ys := by
  simp [planLines]

theorem planLines_flushProse (ct : List (List Char)) :
    planLines (flushProse ct) = ct := by
  unfold flushProse
  by_cases h : ct.isEmpty
  · simp [planLines, List.isEmpty_iff.mp h]
  · have hne : ¬ct = [] := by simpa [List.isEmpty_iff] using h
    simp [planLines, segLines, h, hne]

theorem isTableRow_ne_nil (ls : List Char) (h : isTableRow ls = true) : ls ≠ [] := by
  intro he
  subst he
  simp [isTableRow] at h

theorem isSeparatorLine_ne_nil (ls : List Char) (h : isSeparatorLine ls = true) :
    ls ≠ [] := by
  intro he
  subst he
  simp [isSeparatorLine] at h

/-- Invariant of the renderer's line loop: up to stripping and blank
lines, the lines already emitted plus the pending prose and table
accumulators plus the remaining input are exactly the input lines. -/
theorem dloop_nonblank (L : List (List Char)) :
    ∀ (ct tl : List (List Char)) (it : Bool),
      (it = false → tl = []) → (it = true → ct = []) →
      (∀ l ∈ tl, pyStrip l = l ∧ l ≠ []) →
      stripNonBlank (planLines (dloop L ct tl it)) =
        stripNonBlank ct ++ tl ++ stripNonBlank L := by
  induction L with
  | nil =>
    intro ct tl it h1 h2 h3
    cases it with
    | false =>
      have htl : tl = [] := h1 rfl
      subst htl
      simp [dloop, planLines_flushProse, stripNonBlank]
    | true =>
      have hct : ct = [] := h2 rfl
      subst hct
      by_cases htl : tl = []
      · subst htl
        simp [dloop, planLines_flushProse, stripNonBlank]
      · have hm : (!tl.isEmpty && true) = true := by
          simp [List.isEmpty_iff, htl]
        simp only [dloop, hm, if_true]
        have hplan : planLines [Seg.tableRun tl] = tl := by
          simp [planLines, segLines]
        rw [hplan, stripNonBlank_fixed tl h3]
        simp [stripNonBlank]
  | cons line rest ih =>
    intro ct tl it h1 h2 h3
    simp only [dloop]
    by_cases hcand : (isTableRow (pyStrip line) || isSeparatorLine (pyStrip line)) = true
    · rw [if_pos hcand]
      have hlsne : pyStrip line ≠ [] := by
        rcases Bool.or_eq_true _ _ |>.mp hcand with h | h
        · exact isTableRow_ne_nil _ h
        · exact isSeparatorLine_ne_nil _ h
      have hls3 : ∀ l ∈ tl ++ [pyStrip line], pyStrip l = l ∧ l ≠ [] := by
        intro l hl
        rcases List.mem_append.mp hl with h | h
        · exact h3 l h
        · have : l = pyStrip line := by simpa using h
          subst this
          exact ⟨pyStrip_idem line, hlsne⟩
      have hcons : stripNonBlank (line :: rest) = pyStrip line :: stripNonBlank rest := by
        rw [stripNonBlank_cons]
        simp [List.isEmpty_iff, hlsne]
      cases it with
      | true =>
        have hct : ct = [] := h2 rfl
        rw [if_pos rfl]
        rw [ih ct (tl ++ [pyStrip line]) true (by simp) (fun _ => hct) hls3]
        rw [hcons]
        simp [List.append_assoc]
      | false =>
        have htl : tl = [] := h1 rfl
        subst htl
        rw [if_neg (by simp)]
        rw [planLines_append, stripNonBlank_append, planLines_flushProse]
        rw [ih [] ([] ++ [pyStrip line]) true (by simp) (fun _ => rfl) (by simpa using hls3)]
        rw [hcons]
        simp [stripNonBlank]
    · rw [if_neg hcand]
      cases it with
      | true =>
        have hct : ct = [] := h2 rfl
        subst hct
        by_cases hlse : pyStrip line = []
        · have hcond : (true && !(pyStrip line).isEmpty) = false := by
            simp [List.isEmpty_iff, hlse]
          rw [if_neg (by simp [hcond]), if_neg (by simp [List.isEmpty_iff, hlse])]
          rw [ih [] tl true h1 (fun _ => rfl) h3]
          have : stripNonBlank (line :: rest) = stripNonBlank rest := by
            rw [stripNonBlank_cons]
            simp [List.isEmpty_iff, hlse]
          rw [this]
        · have hcond : (true && !(pyStrip line).isEmpty) = true := by
            simp [List.isEmpty_iff, hlse]
          rw [if_pos (by simp [List.isEmpty_iff, hlse])]
          have hplan : planLines (Seg.tableRun tl :: dloop rest ([] ++ [line]) [] false) =
              tl ++ planLines (dloop rest ([] ++ [line]) [] false) := by
            simp [planLines, segLines]
          rw [hplan, stripNonBlank_append, stripNonBlank_fixed tl h3]
          rw [ih ([] ++ [line]) [] false (fun _ => rfl) (by simp) (by simp)]
          have hcons : stripNonBlank (line :: rest) = pyStrip line :: stripNonBlank rest := by
            rw [stripNonBlank_cons]
            simp [List.isEmpty_iff, hlse]
          rw [hcons]
          simp [stripNonBlank_cons, List.append_assoc, hlse, stripNonBlank]
      | false =>
        have htl : tl = [] := h1 rfl
        subst htl
        rw [if_neg (by simp), if_pos (by simp)]
        rw [ih (ct ++ [line]) [] false (fun _ => rfl) (by simp) (by simp [stripNonBlank])]
        rw [stripNonBlank_append, stripNonBlank_cons (x := line)]
        rw [stripNonBlank_cons (x := line)]
        simp [List.append_assoc, stripNonBlank]

/-! ### Claim C1 -/

/-- C1 counterexample: the reply "| a | b |\n\n| c | d |" has three
input lines, but the render plan accounts for only two — the blank line
inside the table run is assigned to no segment, so an input line is
lost. -/
theorem c1_counterexample :
    (splitLines (("| a | b |\n\n| c | d |").data)).length = 3 ∧
    (planLines (displayMessageWithTables (("| a | b |\n\n| c | d |").data))).length = 2 := by
  decide

/-- C1 (amended): the renderer's single pass assigns every non-blank
input line to exactly one output segment, in input order (prose
segments keep lines raw, table segments keep them stripped); blank
lines inside a table run are dropped, which only affects whitespace. -/
theorem c1_no_nonblank_line_lost (content : List Char) :
    stripNonBlank (planLines (displayMessageWithTables content)) =
      stripNonBlank (splitLines content) := by
  unfold displayMessageWithTables
  by_cases h : content.contains '|'
  · rw [if_pos h]
    rw [dloop_nonblank (splitLines content) [] [] false (fun _ => rfl) (fun _ => rfl)
      (by simp)]
    simp [stripNonBlank]
  · rw [if_neg h]
    simp [planLines, segLines]

/-! ### Claim C2 -/

/-- C2 counterexample: "a | b | c" contains two pipe characters but is
not a candidate table line (it does not start with a pipe), while
"|---" is a candidate (separator) line with only one pipe. -/
theorem c2_counterexample :
    candidateLine (("a | b | c").data) = false ∧
    2 ≤ (("a | b | c").data).count '|' ∧
    candidateLine (("|---").data) = true ∧
    (("|---").data).count '|' < 2 := by
  decide

/-- C2 (amended): in the state machine of
`display_message_with_tables`, a line is a candidate table line exactly
when its stripped form either starts and ends with a pipe and contains
at least three pipes, or starts with a pipe and contains one of the
separator substrings "---", "--|", "-|-", "|-|" — not when it merely
contains two pipe characters. -/
theorem c2_candidate_characterisation (line : List Char) :
    candidateLine line = true ↔
      ((pyStrip line).head? = some '|' ∧
        (((pyStrip line).getLast? = some '|' ∧ 3 ≤ (pyStrip line).count '|') ∨
          hasSepMark (pyStrip line) = true)) := by
  simp only [candidateLine, isTableRow, isSeparatorLine, Bool.or_eq_true,
    Bool.and_eq_true, decide_eq_true_eq]
  tauto

/-! ### Claim C10 -/

/-- C10: the special-character-ratio division in `validate_input` is
reached only for non-empty input, because the emptiness check rejects
first; hence the division by `len(user_input)` never divides by zero. -/
theorem c10_division_guarded (l : List Char)
    (h : reachesSpecialCharDivision l = true) : 0 < l.length := by
  unfold reachesSpecialCharDivision at h
  simp only [Bool.and_eq_true, Bool.not_eq_true', Bool.or_eq_false_iff] at h
  cases l with
  | nil => simp at h
  | cons c r => simp

theorem c10_witness :
    reachesSpecialCharDivision (("hello").data) = true ∧
    0 < (("hello").data).length :=
  ⟨by decide, c10_division_guarded _ (by decide)⟩

/-! ### Claims C5 and C8 -/

theorem normalizeRow_length (hlen : Nat) (rd0 : List (List Char)) :
    (normalizeRow hlen rd0).length = hlen := by
  unfold normalizeRow
  simp only [List.length_take, List.length_append, List.length_replicate]
  omega

/-- C8: every table segment emitted by `render_table_from_lines` has
rows of exactly the header width — short rows are padded with empty
cells, long rows are cut down (after first discarding empty cells). -/
theorem c8_table_row_width (tl : List (List Char)) (hs : List (List Char))
    (rows : List (List (List Char)))
    (h : renderTableFromLines tl = TableOut.table hs rows) :
    ∀ r ∈ rows, r.length = hs.length := by
  unfold renderTableFromLines at h
  split at h
  · exact absurd h (by simp)
  · split at h
    · exact absurd h (by simp)
    · split at h
      · exact absurd h (by simp)
      · split at h
        · exact absurd h (by simp)
        · split at h
          · exact absurd h (by simp)
          · obtain ⟨rfl, rfl⟩ := TableOut.table.inj h
            intro r hr
            unfold tableRows at hr
            obtain ⟨l, _, rfl⟩ := List.mem_map.mp hr
            exact normalizeRow_length _ _

theorem c8_witness :
    renderTableFromLines
        [("| x | y | z |").data, ("|---|---|---|").data, ("| 1 | 2 |").data,
          ("| a | b | c | d |").data] =
      TableOut.table [("x").data, ("y").data, ("z").data]
        [[("1").data, ("2").data, []], [("a").data, ("b").data, ("c").data]] ∧
    ([("1").data, ("2").data, []] : List (List Char)).length =
      ([("x").data, ("y").data, ("z").data] : List (List Char)).length :=
  ⟨by decide,
    c8_table_row_width
      [("| x | y | z |").data, ("|---|---|---|").data, ("| 1 | 2 |").data,
        ("| a | b | c | d |").data]
      [("x").data, ("y").data, ("z").data]
      [[("1").data, ("2").data, []], [("a").data, ("b").data, ("c").data]]
      (by decide) [("1").data, ("2").data, []] (by simp)⟩

/-- C5 counterexample: for the table run
["| a |  | b |", "| 1 | 2 | 3 |"] the renderer's headers are
["a", "b"] — the interior empty header cell is discarded — while the
claimed rule (split on the pipes and drop only the two outer empty
fields) yields ["a", "", "b"]. -/
theorem c5_counterexample :
    renderTableFromLines [("| a |  | b |").data, ("| 1 | 2 | 3 |").data] =
      TableOut.table [("a").data, ("b").data] [[("1").data, ("2").data]] ∧
    specHeaderCells (("| a |  | b |").data) = [("a").data, [], ("b").data] ∧
    ([("a").data, ("b").data] : List (List Char)) ≠ [("a").data, [], ("b").data] := by
  decide

/-- C5 (amended): for every collected table run rendered as a table,
the headers are obtained from the first non-separator line by splitting
on the pipes, discarding the leading and trailing fields created by the
outer pipes, stripping each cell, and then discarding every empty cell
— interior empty header cells are removed, not preserved. -/
theorem c5_header_cells (tl : List (List Char)) (hs : List (List Char))
    (rows : List (List (List Char))) (i : Nat) (hl : List Char)
    (hfind : findHeader 0 tl = some (i, hl))
    (h : renderTableFromLines tl = TableOut.table hs rows) :
    hs = (specHeaderCells hl).filter (fun c => !c.isEmpty) := by
  unfold renderTableFromLines at h
  split at h
  · exact absurd h (by simp)
  · split at h
    · exact absurd h (by simp)
    · next hidx hl2 heq =>
      rw [hfind] at heq
      obtain ⟨rfl, rfl⟩ := Prod.mk.inj (Option.some.inj heq)
      split at h
      · exact absurd h (by simp)
      · split at h
        · exact absurd h (by simp)
        · split at h
          · exact absurd h (by simp)
          · obtain ⟨rfl, rfl⟩ := TableOut.table.inj h
            rfl

theorem c5_witness :
    findHeader 0 [("| a |  | b |").data, ("| 1 | 2 | 3 |").data] =
      some (0, ("| a |  | b |").data) ∧
    renderTableFromLines [("| a |  | b |").data, ("| 1 | 2 | 3 |").data] =
      TableOut.table [("a").data, ("b").data] [[("1").data, ("2").data]] ∧
    ([("a").data, ("b").data] : List (List Char)) =
      (specHeaderCells (("| a |  | b |").data)).filter (fun c => !c.isEmpty) :=
  ⟨by decide, by decide,
    c5_header_cells [("| a |  | b |").data, ("| 1 | 2 | 3 |").data]
      [("a").data, ("b").data] [[("1").data, ("2").data]] 0 (("| a |  | b |").data)
      (by decide) (by decide)⟩

/-! ### Claim C9 -/

/-- C9 counterexample: `validate_input` rejects
"<script>alert(1)</script>" and logs an `xss_attempt` event, but
`log_security_event` is called without a severity argument, so the
event carries the default severity "INFO" — not warning. -/
theorem c9_counterexample :
    (validateInput (("<script>alert(1)</script>").data)).events =
      [⟨"xss_attempt", "INFO"⟩] ∧
    ("INFO" ≠ "warning" ∧ "INFO" ≠ "WARNING") := by
  decide

/-- C9 (amended): whenever `validate_input` rejects a prompt with the
XSS rejection message an `xss_attempt` event is recorded, and whenever
it rejects with the SQL rejection message a `sql_injection_attempt`
event is recorded — in both cases with the logger's default severity
"INFO" rather than warning. -/
theorem c9_injection_logging (l : List Char) :
    ((validateInput l).errMsg = some xssRejectMsg →
      (⟨"xss_attempt", "INFO"⟩ : SecEvent) ∈ (validateInput l).events) ∧
    ((validateInput l).errMsg = some sqlRejectMsg →
      (⟨"sql_injection_attempt", "INFO"⟩ : SecEvent) ∈ (validateInput l).events) := by
  unfold validateInput
  by_cases h1 : (l.isEmpty || (pyStrip l).isEmpty) = true
  · rw [if_pos h1]
    exact ⟨fun hm => absurd (Option.some.inj hm) (by decide),
      fun hm => absurd (Option.some.inj hm) (by decide)⟩
  · rw [if_neg h1]
    by_cases h2 : maxInputLength < l.length
    · rw [if_pos h2]
      exact ⟨fun hm => absurd (Option.some.inj hm) (by decide),
        fun hm => absurd (Option.some.inj hm) (by decide)⟩
    · rw [if_neg h2]
      by_cases h3 : firstHit xssPatterns l = true
      · rw [if_pos h3]
        exact ⟨fun _ => by simp, fun hm => absurd (Option.some.inj hm) (by decide)⟩
      · rw [if_neg h3]
        by_cases h4 : firstHit sqlPatterns l = true
        · rw [if_pos h4]
          exact ⟨fun hm => absurd (Option.some.inj hm) (by decide), fun _ => by simp⟩
        · rw [if_neg h4]
          by_cases h5 : 3 * l.length < 10 * specialCharCount l
          · rw [if_pos h5]
            exact ⟨fun hm => absurd (Option.some.inj hm) (by decide),
              fun hm => absurd (Option.some.inj hm) (by decide)⟩
          · rw [if_neg h5]
            by_cases h6 : l.any badCtrl = true
            · rw [if_pos h6]
              exact ⟨fun hm => absurd (Option.some.inj hm) (by decide),
                fun hm => absurd (Option.some.inj hm) (by decide)⟩
            · rw [if_neg h6]
              by_cases h7 : (splitWs l).any (fun w => 100 < w.length) = true
              · rw [if_pos h7]
                exact ⟨fun hm => absurd (Option.some.inj hm) (by decide),
                  fun hm => absurd (Option.some.inj hm) (by decide)⟩
              · rw [if_neg h7]
                exact ⟨fun hm => by simp at hm, fun hm => by simp at hm⟩

theorem c9_witness :
    ((validateInput (("union  select x").data)).errMsg = some sqlRejectMsg) ∧
    (⟨"sql_injection_attempt", "INFO"⟩ : SecEvent) ∈
      (validateInput (("union  select x").data)).events :=
  ⟨by decide, (c9_injection_logging (("union  select x").data)).2 (by decide)⟩

/-! ### Claim C3 -/

theorem recordEvent_eq (log : List SecEvent) (e : SecEvent) :
    recordEvent log e = log.drop ((log.length + 1) - 100) ++ [e] := by
  show List.drop ((log ++ [e]).length - 100) (log ++ [e]) = _
  rw [show (log ++ [e]).length = log.length + 1 by simp]
  exact List.drop_append_of_le_length (by omega)

/-- The first of two freshly recorded events survives the log's
100-entry ring bound. -/
theorem mem_recordEvents_first (log : List SecEvent) (e1 e2 : SecEvent) :
    e1 ∈ recordEvents log [e1, e2] := by
  show e1 ∈ recordEvent (recordEvent log e1) e2
  rw [recordEvent_eq log e1, recordEvent_eq _ e2]
  rw [List.drop_append_of_le_length
    (by simp only [List.length_append, List.length_drop, List.length_cons,
      List.length_nil]; omega)]
  simp

theorem validateInput_script :
    validateInput (("<script>alert(1)</script>").data) =
      ⟨false, some xssRejectMsg, [⟨"xss_attempt", "INFO"⟩]⟩ := by
  decide

/-- C3 (amended): for a turn whose prompt is
"<script>alert(1)</script>", whenever the rate limiter admits the call,
the assistant message appended to the conversation log is exactly
"Sorry, I encountered an error: Invalid input detected. Please remove
any code or scripts." (the handler prefixes the validator's rejection
message), and an `xss_attempt` event is recorded in the security
log. -/
theorem c3_injection_turn (mx : Nat) (w : Int) (uid : String) (now : Int)
    (st : RLState) (log : List SecEvent) (msgs : List (String × String))
    (upstream : List Char → String)
    (hallow : (isAllowed mx w uid now st).1 = true) :
    (chatTurn mx w uid now upstream ⟨msgs, st, log⟩ "<script>alert(1)</script>").msgs =
      msgs ++ [("user", "<script>alert(1)</script>"),
        ("assistant",
          "Sorry, I encountered an error: Invalid input detected. Please remove any code or scripts.")] ∧
    (⟨"xss_attempt", "INFO"⟩ : SecEvent) ∈
      (chatTurn mx w uid now upstream ⟨msgs, st, log⟩ "<script>alert(1)</script>").log := by
  have hq : queryLangflowApi mx w uid now st log (("<script>alert(1)</script>").data) =
      (.apiError xssRejectMsg, (isAllowed mx w uid now st).2,
        recordEvents log
          [⟨"xss_attempt", "INFO"⟩, ⟨"input_validation_failed", "INFO"⟩]) := by
    unfold queryLangflowApi
    rw [hallow, validateInput_script]
    simp
  have happ : "Sorry, I encountered an error: " ++ xssRejectMsg =
      "Sorry, I encountered an error: Invalid input detected. Please remove any code or scripts." := by
    decide
  unfold chatTurn
  rw [hq]
  exact ⟨by rw [← happ], mem_recordEvents_first log _ _⟩

/-- C3 counterexample: on a fresh session the injection prompt yields
the assistant message with the "Sorry, I encountered an error: " prefix
— not exactly the bare rejection sentence the claim states — while the
`xss_attempt` event is indeed recorded. -/
theorem c3_counterexample :
    (chatTurn 20 60 "u" 0 (fun _ => "") ⟨[], [], []⟩ "<script>alert(1)</script>").msgs =
      [("user", "<script>alert(1)</script>"),
        ("assistant",
          "Sorry, I encountered an error: Invalid input detected. Please remove any code or scripts.")] ∧
    ("Sorry, I encountered an error: Invalid input detected. Please remove any code or scripts." ≠
      "Invalid input detected. Please remove any code or scripts.") ∧
    (⟨"xss_attempt", "INFO"⟩ : SecEvent) ∈
      (chatTurn 20 60 "u" 0 (fun _ => "") ⟨[], [], []⟩ "<script>alert(1)</script>").log := by
  exact ⟨by decide, by decide, by decide⟩

theorem c3_witness :
    (isAllowed 20 60 "sess" 0 []).1 = true ∧
    ((chatTurn 20 60 "sess" 0 (fun _ => "ok") ⟨[("user", "hi")], [], []⟩
        "<script>alert(1)</script>").msgs =
      [("user", "hi")] ++ [("user", "<script>alert(1)</script>"),
        ("assistant",
          "Sorry, I encountered an error: Invalid input detected. Please remove any code or scripts.")] ∧
    (⟨"xss_attempt", "INFO"⟩ : SecEvent) ∈
      (chatTurn 20 60 "sess" 0 (fun _ => "ok") ⟨[("user", "hi")], [], []⟩
        "<script>alert(1)</script>").log) :=
  ⟨by decide,
    c3_injection_turn 20 60 "sess" 0 [] [] [("user", "hi")] (fun _ => "ok") (by decide)⟩

/-! ### Claim C6 -/

/-- The limiter state holding exactly one user's bucket (absent when
empty, as `_clean_old_requests` deletes empty buckets). -/
def bState (uid : String) (b : List Int) : RLState :=
  if b.isEmpty then [] else [(uid, b)]

theorem isAllowed_bState (mx : Nat) (w t0 t : Int) (uid : String) (b : List Int)
    (hb : ∀ x ∈ b, t0 ≤ x ∧ x < t0 + w) (_ht1 : t0 ≤ t) (ht2 : t < t0 + w) :
    isAllowed mx w uid t (bState uid b) =
      if mx ≤ b.length then (false, bState uid b)
      else (true, bState uid (b ++ [t])) := by
  have hcb : cleanBucket w t b = b := List.filter_eq_self.mpr (by
    intro x hx
    have := hb x hx
    simp only [decide_eq_true_eq]
    omega)
  cases b with
  | nil =>
    simp [bState, isAllowed, cleanState, lookupBucket, setBucket]
  | cons x xs =>
    have hbe : ((x :: xs : List Int).isEmpty) = false := by simp
    simp only [bState, hbe, Bool.false_eq_true, if_false]
    unfold isAllowed cleanState
    simp only [List.map_cons, List.map_nil, hcb, List.filter, hbe, Bool.not_false]
    simp only [lookupBucket, List.find?, beq_self_eq_true, setBucket, List.any_cons,
      List.any_nil, Bool.or_false, List.map_cons, List.map_nil, if_true]
    split
    · rfl
    · simp

/-- Any run of `is_allowed` calls inside one window, starting from a
single in-window bucket, admits at most `max - |bucket|` further
calls. -/
theorem c6_aux (mx : Nat) (w t0 : Int) (uid : String) :
    ∀ (ts : List Int) (b : List Int),
      (∀ t ∈ ts, t0 ≤ t ∧ t < t0 + w) → (∀ x ∈ b, t0 ≤ x ∧ x < t0 + w) →
      countTrue (runCalls mx w uid ts (bState uid b)) + b.length ≤
        max mx b.length := by
  intro ts
  induction ts with
  | nil =>
    intro b _ _
    simp [runCalls, countTrue]
  | cons t rest ih =>
    intro b hts hb
    have ht := hts t (by simp)
    have hrest : ∀ x ∈ rest, t0 ≤ x ∧ x < t0 + w := fun x hx => hts x (by simp [hx])
    rw [runCalls, isAllowed_bState mx w t0 t uid b hb ht.1 ht.2]
    by_cases hge : mx ≤ b.length
    · rw [if_pos hge]
      have hct : countTrue (false :: runCalls mx w uid rest (bState uid b)) =
          countTrue (runCalls mx w uid rest (bState uid b)) := by
        simp [countTrue]
      simp only [hct]
      exact ih b hrest hb
    · rw [if_neg hge]
      have hb2 : ∀ x ∈ b ++ [t], t0 ≤ x ∧ x < t0 + w := by
        intro x hx
        rcases List.mem_append.mp hx with h | h
        · exact hb x h
        · have : x = t := by simpa using h
          subst this
          exact ht
      have hct : countTrue (true :: runCalls mx w uid rest (bState uid (b ++ [t]))) =
          countTrue (runCalls mx w uid rest (bState uid (b ++ [t]))) + 1 := by
        simp [countTrue, Nat.add_comm]
      rw [hct]
      have := ih (b ++ [t]) hrest hb2
      simp only [List.length_append, List.length_cons, List.length_nil] at this
      omega

/-- C6: for every user and every sequence of `is_allowed` calls whose
times all lie within one window, at most `max_requests` calls return
true; and with max 20 and a 60-second window, 20 calls at t = 0 all
succeed, the 21st at t = 0 fails, and a call at t = 61 succeeds. -/
theorem c6_rate_limit :
    (∀ (mx : Nat) (w t0 : Int) (uid : String) (ts : List Int),
      (∀ t ∈ ts, t0 ≤ t ∧ t < t0 + w) →
      countTrue (runCalls mx w uid ts []) ≤ mx) ∧
    runCalls 20 60 "user" (List.replicate 21 0 ++ [61]) [] =
      List.replicate 20 true ++ [false, true] := by
  constructor
  · intro mx w t0 uid ts hts
    have := c6_aux mx w t0 uid ts [] hts (by simp)
    simpa [bState] using this
  · decide

theorem c6_witness :
    countTrue (runCalls 3 60 "u" [0, 10, 59, 59] []) ≤ 3 :=
  c6_rate_limit.1 3 60 0 "u" [0, 10, 59, 59] (by decide)

/-! ### Claim C7 -/

/-- The window invariant the claim asserts after every public
operation: every stored timestamp is within the current window and no
user has an empty bucket. -/
def rlInvariant (w now : Int) (st : RLState) : Prop :=
  ∀ p ∈ st, p.2 ≠ [] ∧ ∀ t ∈ p.2, now - t < w

instance (w now : Int) (st : RLState) : Decidable (rlInvariant w now st) := by
  unfold rlInvariant
  infer_instance

theorem cleanState_invariant (w now : Int) (st : RLState) :
    rlInvariant w now (cleanState w now st) := by
  intro p hp
  unfold cleanState at hp
  rw [List.mem_filter] at hp
  obtain ⟨hp1, hp2⟩ := hp
  refine ⟨by simpa using hp2, ?_⟩
  rw [List.mem_map] at hp1
  obtain ⟨q, _, rfl⟩ := hp1
  intro t ht
  have := List.of_mem_filter ht
  simpa using this

theorem mem_setBucket (uid : String) (ts : List Int) (st : RLState)
    (q : String × List Int) (hq : q ∈ setBucket uid ts st) :
    q.2 = ts ∨ q ∈ st := by
  unfold setBucket at hq
  split at hq
  · rw [List.mem_map] at hq
    obtain ⟨p, hp, hpe⟩ := hq
    by_cases hpu : (p.1 == uid) = true
    · rw [if_pos hpu] at hpe
      left
      rw [← hpe]
    · rw [if_neg hpu] at hpe
      right
      rw [← hpe]
      exact hp
  · rcases List.mem_append.mp hq with h | h
    · right
      exact h
    · left
      have : q = (uid, ts) := by simpa using h
      rw [this]

theorem lookupBucket_subset (uid : String) (st : RLState) (t : Int)
    (ht : t ∈ lookupBucket uid st) : ∃ p ∈ st, t ∈ p.2 := by
  unfold lookupBucket at ht
  cases hf : st.find? (fun p => p.1 == uid) with
  | none => rw [hf] at ht; simp at ht
  | some p =>
    rw [hf] at ht
    exact ⟨p, List.mem_of_find?_eq_some hf, ht⟩

/-- C7 (amended): `is_allowed` and `get_request_count` evict expired
timestamps at their start, so after either of them every stored
timestamp is within the current window and empty buckets are removed;
`get_wait_time`, however, performs no eviction and leaves the state
exactly as it was. -/
theorem c7_eviction (mx : Nat) (w : Int) (uid : String) (now : Int) (st : RLState)
    (hw : 0 < w) :
    rlInvariant w now (isAllowed mx w uid now st).2 ∧
    rlInvariant w now (getRequestCount w uid now st).2 ∧
    (getWaitTime mx w uid now st).2 = st := by
  refine ⟨?_, ?_, ?_⟩
  · unfold isAllowed
    split
    · exact cleanState_invariant w now st
    · intro p hp
      rcases mem_setBucket _ _ _ p hp with h | h
      · constructor
        · rw [h]
          simp
        · rw [h]
          intro t ht
          rcases List.mem_append.mp ht with h2 | h2
          · obtain ⟨q, hq, hq2⟩ := lookupBucket_subset uid _ t h2
            exact (cleanState_invariant w now st q hq).2 t hq2
          · have : t = now := by simpa using h2
            subst this
            omega
      · exact cleanState_invariant w now st p h
  · unfold getRequestCount
    exact cleanState_invariant w now st
  · unfold getWaitTime
    split
    · rfl
    · split <;> rfl

/-- C7 counterexample: after one allowed request at t = 0, a
`get_wait_time` call at t = 100 leaves the bucket unchanged, still
holding the timestamp 0, which is outside the 60-second window at
t = 100 — so this public operation does not evict expired
timestamps. -/
theorem c7_counterexample :
    (isAllowed 20 60 "u" 0 []).2 = [("u", [0])] ∧
    (getWaitTime 20 60 "u" 100 [("u", [0])]).2 = [("u", [0])] ∧
    ¬ rlInvariant 60 100 [("u", [0])] := by
  refine ⟨by decide, by decide, ?_⟩
  intro h
  have := (h ("u", [0]) (by simp)).2 0 (by simp)
  omega

theorem c7_witness :
    ((0 : Int) < 60) ∧
    (rlInvariant 60 5 (isAllowed 20 60 "u" 5 [("u", [0])]).2 ∧
      rlInvariant 60 5 (getRequestCount 60 "u" 5 [("u", [0])]).2 ∧
      (getWaitTime 20 60 "u" 5 [("u", [0])]).2 = [("u", [0])]) :=
  ⟨by decide, c7_eviction 20 60 "u" 5 [("u", [0])] (by decide)⟩

/-! ### Claim C4 -/

theorem removeTags_eq_self : ∀ (l : List Char), (∀ c ∈ l, c ≠ '<') →
    removeTags l = l := by
  intro l
  induction l with
  | nil => intro _; rw [removeTags]
  | cons c rest ih =>
    intro h
    have hc : ¬c = '<' := h c (by simp)
    rw [removeTags, if_neg hc, ih (fun d hd => h d (by simp [hd]))]

theorem escChar_plain (c : Char) (h1 : c ≠ '&') (h2 : c ≠ '<') (h3 : c ≠ '>')
    (h4 : c ≠ '"') (h5 : c ≠ '\'') : escChar c = [c] := by
  unfold escChar
  rw [if_neg h1, if_neg h2, if_neg h3, if_neg h4, if_neg h5]

theorem escapeHtml_eq_self : ∀ (l : List Char), (∀ c ∈ l, escChar c = [c]) →
    escapeHtml l = l := by
  intro l
  induction l with
  | nil => intro _; rfl
  | cons c rest ih =>
    intro h
    have hrest := ih (fun d hd => h d (by simp [hd]))
    unfold escapeHtml at hrest ⊢
    simp only [List.map_cons, List.flatten_cons, hrest, h c (by simp)]
    rfl

/-- Tokens produced by the whitespace splitter are non-empty and
contain no whitespace. -/
theorem splitWsAux_tokens : ∀ (l acc : List Char),
    (∀ c ∈ acc, pyIsSpace c = false) →
    ∀ w ∈ splitWsAux acc l, w ≠ [] ∧ ∀ c ∈ w, pyIsSpace c = false := by
  intro l
  induction l with
  | nil =>
    intro acc hacc w hw
    unfold splitWsAux at hw
    by_cases he : acc.isEmpty
    · rw [if_pos he] at hw
      simp at hw
    · rw [if_neg he] at hw
      have hw2 : w = acc.reverse := by simpa using hw
      subst hw2
      refine ⟨?_, fun c hc => hacc c (by simpa using hc)⟩
      simp only [ne_eq, List.reverse_eq_nil_iff]
      simpa [List.isEmpty_iff] using he
  | cons c rest ih =>
    intro acc hacc w hw
    unfold splitWsAux at hw
    by_cases hsp : pyIsSpace c
    · rw [if_pos hsp] at hw
      by_cases he : acc.isEmpty
      · rw [if_pos he] at hw
        exact ih [] (by simp) w hw
      · rw [if_neg he] at hw
        rcases List.mem_cons.mp hw with hw2 | hw2
        · subst hw2
          refine ⟨?_, fun d hd => hacc d (by simpa using hd)⟩
          simp only [ne_eq, List.reverse_eq_nil_iff]
          simpa [List.isEmpty_iff] using he
        · exact ih [] (by simp) w hw2
    · rw [if_neg hsp] at hw
      refine ih (c :: acc) ?_ w hw
      intro d hd
      rcases List.mem_cons.mp hd with rfl | hd2
      · simpa using hsp
      · exact hacc d hd2

/-- Characters of a token come from the accumulator or the input. -/
theorem splitWsAux_subset : ∀ (l acc : List Char) (w : List Char),
    w ∈ splitWsAux acc l → ∀ c ∈ w, c ∈ acc ∨ c ∈ l := by
  intro l
  induction l with
  | nil =>
    intro acc w hw c hc
    unfold splitWsAux at hw
    by_cases he : acc.isEmpty
    · rw [if_pos he] at hw
      simp at hw
    · rw [if_neg he] at hw
      have hw2 : w = acc.reverse := by simpa using hw
      subst hw2
      left
      simpa using hc
  | cons a rest ih =>
    intro acc w hw c hc
    unfold splitWsAux at hw
    by_cases hsp : pyIsSpace a
    · rw [if_pos hsp] at hw
      by_cases he : acc.isEmpty
      · rw [if_pos he] at hw
        rcases ih [] w hw c hc with h | h
        · simp at h
        · right
          simp [h]
      · rw [if_neg he] at hw
        rcases List.mem_cons.mp hw with hw2 | hw2
        · subst hw2
          left
          simpa using hc
        · rcases ih [] w hw2 c hc with h | h
          · simp at h
          · right
            simp [h]
    · rw [if_neg hsp] at hw
      rcases ih (a :: acc) w hw c hc with h | h
      · rcases List.mem_cons.mp h with rfl | h2
        · right
          simp
        · left
          exact h2
      · right
        simp [h]

/-- Feeding a whitespace-free word into the splitter just extends the
accumulator. -/
theorem splitWsAux_word : ∀ (u : List Char), (∀ c ∈ u, pyIsSpace c = false) →
    ∀ (acc rest : List Char),
      splitWsAux acc (u ++ rest) = splitWsAux (u.reverse ++ acc) rest := by
  intro u
  induction u with
  | nil => intro _ acc rest; simp
  | cons c u2 ih =>
    intro h acc rest
    have hc : pyIsSpace c = false := h c (by simp)
    have hstep : ∀ (acc2 r : List Char),
        splitWsAux acc2 (c :: r) = splitWsAux (c :: acc2) r := by
      intro acc2 r
      conv_lhs => unfold splitWsAux
      rw [if_neg (by simp [hc])]
    show splitWsAux acc (c :: (u2 ++ rest)) = _
    rw [hstep, ih (fun d hd => h d (by simp [hd])) (c :: acc) rest]
    congr 1
    simp

/-- Splitting the space-joined form of non-empty whitespace-free tokens
recovers the tokens. -/
theorem splitWs_joinSp : ∀ (ts : List (List Char)),
    (∀ w ∈ ts, w ≠ [] ∧ ∀ c ∈ w, pyIsSpace c = false) →
    splitWs (joinSp ts) = ts := by
  intro ts
  induction ts with
  | nil => intro _; rfl
  | cons w ws ih =>
    intro h
    have hw := h w (by simp)
    have hwe : w.reverse.isEmpty = false := by
      simp [List.isEmpty_iff, hw.1]
    cases ws with
    | nil =>
      show splitWsAux [] (joinSp [w]) = [w]
      have : joinSp [w] = w ++ [] := by simp [joinSp]
      rw [this, splitWsAux_word w hw.2 [] []]
      unfold splitWsAux
      rw [List.append_nil, if_neg (by simp [hwe])]
      simp
    | cons w2 ws2 =>
      show splitWsAux [] (joinSp (w :: w2 :: ws2)) = _
      have : joinSp (w :: w2 :: ws2) = w ++ (' ' :: joinSp (w2 :: ws2)) := by
        simp [joinSp]
      rw [this, splitWsAux_word w hw.2 [] _]
      unfold splitWsAux
      rw [if_pos (by decide), if_neg (by simp [hwe])]
      have := ih (fun v hv => h v (by simp [hv]))
      unfold splitWs at this
      rw [List.append_nil, this]
      simp

theorem joinSp_cons_le (x : List Char) (xs : List (List Char)) :
    (joinSp (x :: xs)).length ≤ x.length + 1 + (joinSp xs).length := by
  cases xs with
  | nil => simp [joinSp]
  | cons y ys =>
    simp only [joinSp, List.length_append, List.length_cons]
    omega

theorem splitWsAux_joinSp_length : ∀ (l acc : List Char),
    (joinSp (splitWsAux acc l)).length ≤ acc.length + l.length := by
  intro l
  induction l with
  | nil =>
    intro acc
    unfold splitWsAux
    by_cases he : acc.isEmpty
    · rw [if_pos he]
      simp [joinSp]
    · rw [if_neg he]
      simp [joinSp]
  | cons c rest ih =>
    intro acc
    unfold splitWsAux
    by_cases hsp : pyIsSpace c
    · rw [if_pos hsp]
      by_cases he : acc.isEmpty
      · rw [if_pos he]
        have := ih []
        simp only [List.length_nil, Nat.zero_add] at this
        simp only [List.length_cons]
        omega
      · rw [if_neg he]
        have h1 := joinSp_cons_le acc.reverse (splitWsAux [] rest)
        have h2 := ih []
        simp only [List.length_nil, Nat.zero_add] at h2
        simp only [List.length_cons, List.length_reverse] at h1 ⊢
        omega
    · rw [if_neg hsp]
      have := ih (c :: acc)
      simp only [List.length_cons] at this ⊢
      omega

theorem collapseWs_length_le (l : List Char) : (collapseWs l).length ≤ l.length := by
  have := splitWsAux_joinSp_length l []
  simpa [collapseWs, splitWs] using this

theorem mem_joinSp : ∀ (ts : List (List Char)) (c : Char), c ∈ joinSp ts →
    c = ' ' ∨ ∃ w ∈ ts, c ∈ w := by
  intro ts
  induction ts with
  | nil => intro c hc; simp [joinSp] at hc
  | cons w ws ih =>
    intro c hc
    cases ws with
    | nil =>
      right
      exact ⟨w, by simp, by simpa [joinSp] using hc⟩
    | cons w2 ws2 =>
      simp only [joinSp] at hc
      rcases List.mem_append.mp hc with h | h
      · right
        exact ⟨w, by simp, h⟩
      · rcases List.mem_cons.mp h with h2 | h2
        · left
          exact h2
        · rcases ih c h2 with h3 | ⟨w3, hw3, hc3⟩
          · left
            exact h3
          · right
            exact ⟨w3, by simp [hw3], hc3⟩

theorem mem_collapseWs (l : List Char) (c : Char) (hc : c ∈ collapseWs l) :
    c = ' ' ∨ c ∈ l := by
  rcases mem_joinSp _ c hc with h | ⟨w, hw, hcw⟩
  · left
    exact h
  · right
    have := splitWsAux_subset l [] w hw c hcw
    simpa using this

theorem collapseWs_collapse (l : List Char) :
    collapseWs (collapseWs l) = collapseWs l := by
  show joinSp (splitWs (joinSp (splitWs l))) = joinSp (splitWs l)
  rw [splitWs_joinSp (splitWs l) (fun w hw => splitWsAux_tokens l [] (by simp) w hw)]

/-- C4 counterexample: `sanitize` is not idempotent — on "a&b" it
produces "a&amp;b", and a second pass re-escapes the ampersand to
"a&amp;amp;b". -/
theorem c4_counterexample :
    sanitizeInput (sanitizeInput (("a&b").data)) ≠ sanitizeInput (("a&b").data) := by
  have e1 : sanitizeInput (("a&b").data) = ("a&amp;b").data := by
    unfold sanitizeInput
    rw [removeTags_eq_self _ (by decide)]
    decide
  have e2 : sanitizeInput (("a&amp;b").data) = ("a&amp;amp;b").data := by
    unfold sanitizeInput
    rw [removeTags_eq_self _ (by decide)]
    decide
  rw [e1, e2]
  decide

/-- C4 (amended): `sanitize` is idempotent on inputs that contain none
of the HTML-escaped characters & < > " ' and are within the length
limit; in general a second pass re-escapes ampersands produced by the
first (and re-truncation can strip a trailing space), so
`sanitize(sanitize(x)) = sanitize(x)` does not hold for every x. -/
theorem c4_sanitize_idem (l : List Char)
    (hplain : ∀ c ∈ l, c ≠ '&' ∧ c ≠ '<' ∧ c ≠ '>' ∧ c ≠ '"' ∧ c ≠ '\'')
    (hlen : l.length ≤ maxInputLength) :
    sanitizeInput (sanitizeInput l) = sanitizeInput l := by
  have h1 : removeTags l = l := removeTags_eq_self l (fun c hc => (hplain c hc).2.1)
  have h2 : escapeHtml l = l :=
    escapeHtml_eq_self l (fun c hc =>
      escChar_plain c (hplain c hc).1 (hplain c hc).2.1 (hplain c hc).2.2.1
        (hplain c hc).2.2.2.1 (hplain c hc).2.2.2.2)
  have hylen : (collapseWs (filterCtrl l)).length ≤ maxInputLength :=
    le_trans (collapseWs_length_le _) (le_trans (List.length_filter_le _ _) hlen)
  have hsl : sanitizeInput l = collapseWs (filterCtrl l) := by
    unfold sanitizeInput
    rw [h1, h2, List.take_of_length_le hylen]
  have hymemf : ∀ c ∈ collapseWs (filterCtrl l), c = ' ' ∨ c ∈ filterCtrl l :=
    fun c hc => mem_collapseWs (filterCtrl l) c hc
  have hy5 : ∀ c ∈ collapseWs (filterCtrl l),
      c ≠ '&' ∧ c ≠ '<' ∧ c ≠ '>' ∧ c ≠ '"' ∧ c ≠ '\'' := by
    intro c hc
    rcases hymemf c hc with rfl | h
    · exact ⟨by decide, by decide, by decide, by decide, by decide⟩
    · exact hplain c (List.mem_of_mem_filter h)
  have hr1 : removeTags (collapseWs (filterCtrl l)) = collapseWs (filterCtrl l) :=
    removeTags_eq_self _ (fun c hc => (hy5 c hc).2.1)
  have hr2 : escapeHtml (collapseWs (filterCtrl l)) = collapseWs (filterCtrl l) :=
    escapeHtml_eq_self _ (fun c hc =>
      escChar_plain c (hy5 c hc).1 (hy5 c hc).2.1 (hy5 c hc).2.2.1
        (hy5 c hc).2.2.2.1 (hy5 c hc).2.2.2.2)
  have hr3 : filterCtrl (collapseWs (filterCtrl l)) = collapseWs (filterCtrl l) := by
    refine List.filter_eq_self.mpr ?_
    intro c hc
    rcases hymemf c hc with rfl | h
    · decide
    · exact List.of_mem_filter h
  rw [hsl]
  unfold sanitizeInput
  rw [hr1, hr2, hr3, collapseWs_collapse, List.take_of_length_le hylen]

theorem c4_witness :
    sanitizeInput (sanitizeInput (("hello  world, again!").data)) =
      sanitizeInput (("hello  world, again!").data) :=
  c4_sanitize_idem (("hello  world, again!").data) (by decide) (by decide)

end Furze
